import Mathlib

/-!
Shallow embedding of `generate_dds_messages.py`, a code-generation
orchestrator: it parses a message-list file into a package → messages map,
resolves IDL file paths through an external registry, and invokes an
external generator per package, collecting the output files that exist
afterwards.

File contents are modelled as `List String` (the lines), filesystem and
subprocess effects as explicit environment records of functions
(`LocEnv`, `GenEnv`), and paths as strings joined with `"/"`, mirroring
`pathlib.Path`'s `/` operator.
-/

namespace DdsGen

/-! ### Data model: `IdlGenerator` descriptors -/

/-- Embeds the `IdlGenerator` descriptor class: a ROS 2 package name, a
message type name, and the absolute path of the IDL file. -/
structure IdlGenerator where
  package : String
  msg_type : String
  idl_path : String
deriving DecidableEq, Repr

/-- `self.h_name = f"{self.msg_type.lower()}.h"`. -/
def IdlGenerator.h_name (g : IdlGenerator) : String :=
  g.msg_type.toLower ++ ".h"

/-- `self.c_name = f"{self.msg_type.lower()}.c"`. -/
def IdlGenerator.c_name (g : IdlGenerator) : String :=
  g.msg_type.toLower ++ ".c"

/-! ### List parser: `parse_message_list` -/

/-- Python `str.strip()`: drop leading and trailing whitespace. -/
def strip (s : String) : String :=
  (((s.toList.dropWhile Char.isWhitespace).reverse.dropWhile
    Char.isWhitespace).reverse).asString

/-- `line.split('/', 1)` on a list of characters: everything before the
first `'/'`, and everything after it. -/
def splitAtFirstSlash : List Char → List Char × List Char
  | [] => ([], [])
  | c :: rest =>
    if c = '/' then ([], rest)
    else
      let p := splitAtFirstSlash rest
      (c :: p.1, p.2)

/-- The per-line validation of `parse_message_list`: strip the line, skip
blank lines and `#` comments, require a `'/'`, split at the first `'/'`,
strip both sides and require them non-empty.  Returns the
`(package, msg_type)` pair of a valid line, `none` for a skipped line. -/
def parseLine (rawLine : String) : Option (String × String) :=
  let line := strip rawLine
  if line = "" then none
  else if line.toList.head? = some '#' then none
  else if line.toList.contains '/' then
    let parts := splitAtFirstSlash line.toList
    let package := strip parts.1.asString
    let msg_type := strip parts.2.asString
    if package = "" ∨ msg_type = "" then none
    else some (package, msg_type)
  else none

/-- `package_msgs[package].append(msg_type)` on an insertion-ordered
association list, the embedding of `defaultdict(list)`. -/
def insertMsg (m : List (String × List String)) (package msg_type : String) :
    List (String × List String) :=
  match m with
  | [] => [(package, [msg_type])]
  | (p, msgs) :: rest =>
    if p = package then (p, msgs ++ [msg_type]) :: rest
    else (p, msgs) :: insertMsg rest package msg_type

/-- One loop iteration of `parse_message_list`: skipped lines leave the
map unchanged, valid lines append their message to their package. -/
def parseStep (acc : List (String × List String)) (line : String) :
    List (String × List String) :=
  match parseLine line with
  | none => acc
  | some (package, msg_type) => insertMsg acc package msg_type

/-- Embeds `parse_message_list` on the lines of an existing file:
builds the package → message-list map in insertion order. -/
def parse_message_list (lines : List String) : List (String × List String) :=
  lines.foldl parseStep []

/-- Embeds the file-existence check of `parse_message_list`: a missing
file (`none`) raises `FileNotFoundError`. -/
def parse_message_list_checked (file : Option (List String)) :
    Except String (List (String × List String)) :=
  match file with
  | none => Except.error "FileNotFoundError: Message list file not found"
  | some lines => Except.ok (parse_message_list lines)

/-- Lookup in the insertion-ordered map, defaulting to the empty list. -/
def mapLookup (m : List (String × List String)) (q : String) : List String :=
  match m with
  | [] => []
  | (p, msgs) :: rest => if p = q then msgs else mapLookup rest q

/-- Whether the map has an entry for key `q`. -/
def hasKey (m : List (String × List String)) (q : String) : Bool :=
  m.any (fun e => e.1 == q)

/-- Folding `insertMsg` over a list of already-validated entries. -/
def insStep (acc : List (String × List String)) (e : String × String) :
    List (String × List String) :=
  insertMsg acc e.1 e.2

example : parse_message_list ["sensor_msgs/Imu", "# comment", "", "std_msgs/Header", "sensor_msgs/NavSatFix"] =
    [("sensor_msgs", ["Imu", "NavSatFix"]), ("std_msgs", ["Header"])] := by decide

example : parseLine "  / " = none := by decide

/-! ### Path resolver: `find_ros_share_dir` and `locate_idl_files` -/

/-- The external state the resolver consults: the `ros2 pkg prefix
--share` registry command (`none` models a non-zero exit, `some out` its
stdout) and filesystem existence checks. -/
structure LocEnv where
  registryOut : String → Option String
  pathExists : String → Bool

/-- `share_dir / "msg"`. -/
def msgDirOf (share_dir : String) : String := share_dir ++ "/msg"

/-- `msg_dir / f"{msg_type}.idl"`. -/
def idlPathOf (msg_dir msg_type : String) : String :=
  msg_dir ++ "/" ++ msg_type ++ ".idl"

/-- Embeds `find_ros_share_dir`: run the registry command; a non-zero
exit raises `CalledProcessError`; an empty stripped stdout raises
`ValueError`; otherwise the stripped path is returned. -/
def find_ros_share_dir (env : LocEnv) (package : String) :
    Except String String :=
  match env.registryOut package with
  | none => Except.error "CalledProcessError"
  | some out =>
    let share_path := strip out
    if share_path = "" then Except.error "ValueError: Empty share path"
    else Except.ok share_path

/-- One iteration of the `locate_idl_files` loop over a
`(package, msg_types)` entry, acting on the accumulator pair
`(idl_generators, missing_packages)`: a failed share-dir lookup appends
the package to `missing_packages`; a share dir without a `msg`
subdirectory contributes nothing; otherwise each message type whose
`.idl` file exists yields one descriptor, in list order. -/
def locStep (env : LocEnv) (acc : List IdlGenerator × List String)
    (pm : String × List String) : List IdlGenerator × List String :=
  match find_ros_share_dir env pm.1 with
  | Except.error _ => (acc.1, acc.2 ++ [pm.1])
  | Except.ok share_dir =>
    let msg_dir := msgDirOf share_dir
    if env.pathExists msg_dir then
      (acc.1 ++ pm.2.filterMap (fun msg_type =>
        let idl_path := idlPathOf msg_dir msg_type
        if env.pathExists idl_path then
          some ⟨pm.1, msg_type, idl_path⟩
        else none), acc.2)
    else acc

/-- Embeds `locate_idl_files`: returns the resolved descriptors and the
`missing_packages` diagnostic list. -/
def locate_idl_files (env : LocEnv)
    (package_msgs : List (String × List String)) :
    List IdlGenerator × List String :=
  package_msgs.foldl (locStep env) ([], [])

/-! ### Batch generator: `generate_uxr_code` -/

/-- The external state the generator stage consults: whether a generator
command line exits zero, and filesystem existence checks made after the
generator has run. -/
structure GenEnv where
  runOk : List String → Bool
  fileExists : String → Bool

/-- `output_dir / package / "msg"`. -/
def pkgOutputDirOf (output_dir package : String) : String :=
  output_dir ++ "/" ++ package ++ "/msg"

/-- Embeds the `cmd` construction of `generate_uxr_code`: the literal
argument list (with an empty string in place of `-replace` when replace
is disabled), include flags, IDL files, then the
`[arg for arg in cmd if arg]` filter dropping empty arguments. -/
def build_generator_cmd (pkg_output_dir : String)
    (include_paths : List String) (replace : Bool)
    (idl_files : List String) : List String :=
  let cmd := ["microxrceddsgen", "-cs",
    if replace then "-replace" else "", "-d", pkg_output_dir]
  let cmd := cmd ++ include_paths.flatMap (fun path => ["-I", path])
  let cmd := cmd ++ idl_files
  cmd.filter (fun arg => arg != "")

/-- The command line `generate_uxr_code` builds for one package group. -/
def groupCmd (output_dir : String) (include_paths : List String)
    (replace : Bool) (package : String) (generators : List IdlGenerator) :
    List String :=
  build_generator_cmd (pkgOutputDirOf output_dir package) include_paths
    replace (generators.map (fun gen => gen.idl_path))

/-- `package_groups[gen.package].append(gen)` on an insertion-ordered
association list, the embedding of the grouping `defaultdict(list)`. -/
def insertGen (groups : List (String × List IdlGenerator))
    (gen : IdlGenerator) : List (String × List IdlGenerator) :=
  match groups with
  | [] => [(gen.package, [gen])]
  | (p, gs) :: rest =>
    if p = gen.package then (p, gs ++ [gen]) :: rest
    else (p, gs) :: insertGen rest gen

/-- Grouping of descriptors by package, first-seen package order. -/
def groupByPackage (gens : List IdlGenerator) :
    List (String × List IdlGenerator) :=
  gens.foldl insertGen []

/-- Processing of one package group in `generate_uxr_code`: build the
command, run it; on success record, per descriptor, the expected `.h`
and `.c` files when both exist; on failure record nothing. -/
def processGroup (env : GenEnv) (output_dir : String)
    (include_paths : List String) (replace : Bool) (package : String)
    (generators : List IdlGenerator) : List String :=
  if env.runOk (groupCmd output_dir include_paths replace package generators) then
    generators.foldl (fun acc gen =>
      if env.fileExists (pkgOutputDirOf output_dir package ++ "/" ++ gen.h_name)
          && env.fileExists (pkgOutputDirOf output_dir package ++ "/" ++ gen.c_name) then
        acc ++ [pkgOutputDirOf output_dir package ++ "/" ++ gen.h_name,
          pkgOutputDirOf output_dir package ++ "/" ++ gen.c_name]
      else acc) []
  else []

/-- Embeds `generate_uxr_code`: group the descriptors by package and
accumulate each group's verified output files. -/
def generate_uxr_code (env : GenEnv) (idl_generators : List IdlGenerator)
    (output_dir : String) (include_paths : List String) (replace : Bool) :
    List String :=
  (groupByPackage idl_generators).foldl (fun generated_files pg =>
    generated_files ++
      processGroup env output_dir include_paths replace pg.1 pg.2) []

/-! ### `main` -/

/-- The inputs of one program run: the message-list file (`none` when
the file does not exist), the resolver and generator environments, and
the command-line options. -/
structure MainEnv where
  messageFile : Option (List String)
  locEnv : LocEnv
  genEnv : GenEnv
  outputDir : String
  includePaths : List String
  replace : Bool

/-- Embeds `main` down to its exit code: `sys.exit(1)` when the message
list cannot be parsed, when it has no valid entries, or when no IDL
files were located; otherwise the run completes with exit code 0. -/
def mainRun (env : MainEnv) : Nat :=
  match parse_message_list_checked env.messageFile with
  | Except.error _ => 1
  | Except.ok package_msgs =>
    if package_msgs.isEmpty then 1
    else
      let idl_generators := (locate_idl_files env.locEnv package_msgs).1
      if idl_generators.isEmpty then 1
      else
        let _ := generate_uxr_code env.genEnv idl_generators env.outputDir
          env.includePaths env.replace
        0

/-! ### Parser lemmas -/

theorem mapLookup_insertMsg (m : List (String × List String))
    (pk v q : String) :
    mapLookup (insertMsg m pk v) q =
      if pk = q then mapLookup m q ++ [v] else mapLookup m q := by
  induction m with
  | nil => by_cases h : pk = q <;> simp [insertMsg, mapLookup, h]
  | cons hd tl ih =>
    obtain ⟨a, ms⟩ := hd
    by_cases h1 : a = pk
    · subst h1
      by_cases h2 : a = q <;> simp [insertMsg, mapLookup, h2]
    · by_cases h2 : a = q
      · subst h2
        simp [insertMsg, mapLookup, h1,
          show ¬ pk = a from fun hh => h1 hh.symm]
      · simp [insertMsg, mapLookup, h1, h2, ih]

theorem hasKey_insertMsg (m : List (String × List String))
    (pk v q : String) :
    hasKey (insertMsg m pk v) q = ((pk == q) || hasKey m q) := by
  induction m with
  | nil => simp [insertMsg, hasKey]
  | cons hd tl ih =>
    obtain ⟨a, ms⟩ := hd
    by_cases h1 : a = pk
    · subst h1
      simp only [insertMsg, if_pos rfl, hasKey, List.any_cons]
      cases h2 : (a == q) <;> simp [h2]
    · simp only [insertMsg, if_neg h1, hasKey, List.any_cons] at ih ⊢
      rw [ih]
      cases (a == q) <;> cases (pk == q) <;> simp

theorem mapLookup_foldl_ins (es : List (String × String)) :
    ∀ (acc : List (String × List String)) (q : String),
      mapLookup (es.foldl insStep acc) q =
        mapLookup acc q ++ (es.filter (fun e => e.1 == q)).map Prod.snd := by
  induction es with
  | nil => intro acc q; simp
  | cons e es ih =>
    intro acc q
    rw [List.foldl_cons, ih]
    by_cases h : e.1 = q
    · simp [insStep, mapLookup_insertMsg, List.filter_cons, h]
    · simp [insStep, mapLookup_insertMsg, List.filter_cons, h]

theorem hasKey_foldl_ins (es : List (String × String)) :
    ∀ (acc : List (String × List String)) (q : String),
      hasKey (es.foldl insStep acc) q =
        (hasKey acc q || es.any (fun e => e.1 == q)) := by
  induction es with
  | nil => intro acc q; simp
  | cons e es ih =>
    intro acc q
    rw [List.foldl_cons, ih]
    simp only [insStep, hasKey_insertMsg, List.any_cons]
    cases (e.1 == q) <;> cases hasKey acc q <;> simp

theorem parse_eq_foldl_ins (lines : List String) :
    ∀ acc, lines.foldl parseStep acc =
      (lines.filterMap parseLine).foldl insStep acc := by
  induction lines with
  | nil => intro acc; simp
  | cons l ls ih =>
    intro acc
    rw [List.foldl_cons, List.filterMap_cons]
    cases h : parseLine l with
    | none => rw [ih]; simp [parseStep, h]
    | some pm => rw [List.foldl_cons, ih]; simp [parseStep, insStep, h]

/-- C1: for every input file, the parsed map holds, under each package
key, exactly the messages of the valid (non-blank, non-comment,
`/`-containing, both-sides-non-empty) lines that name that package, in
input order; and a package has an entry exactly when some valid line
names it. -/
theorem parse_message_list_exact_packages (lines : List String)
    (p : String) :
    mapLookup (parse_message_list lines) p =
      ((lines.filterMap parseLine).filter
        (fun e => e.1 == p)).map Prod.snd
    ∧ hasKey (parse_message_list lines) p =
      (lines.filterMap parseLine).any (fun e => e.1 == p) := by
  constructor
  · rw [parse_message_list, parse_eq_foldl_ins, mapLookup_foldl_ins]
    simp [mapLookup]
  · rw [parse_message_list, parse_eq_foldl_ins, hasKey_foldl_ins]
    simp [hasKey]

/-- C2 counterexample: a line with two `/` characters does add an entry
to the map, with everything after the first `/` as the message type. -/
theorem parse_line_two_slashes_adds_entry :
    parse_message_list ["a/b/c"] = [("a", ["b/c"])]
    ∧ parse_message_list ["a/b/c"] ≠ [] := by decide

/-- C2 (amended): a non-blank, non-comment line with no `/`, or whose
package or message part is empty after stripping, is skipped — the map
is the same as if the line were absent — and parsing continues; a valid
line is split at the FIRST `/`, so a line with more than one `/` yields
an entry whose message part carries the remaining `/` characters. -/
theorem parse_line_validation (pre post : List String) (line : String) :
    (parseLine line = none →
      parse_message_list (pre ++ line :: post) =
        parse_message_list (pre ++ post))
    ∧ ((strip line).toList.contains '/' = false →
        parseLine line = none)
    ∧ (∀ p m, parseLine line = some (p, m) →
        (strip line).toList.contains '/' = true
        ∧ p = strip (splitAtFirstSlash (strip line).toList).1.asString
        ∧ m = strip (splitAtFirstSlash (strip line).toList).2.asString
        ∧ p ≠ "" ∧ m ≠ "") := by
  refine ⟨?_, ?_, ?_⟩
  · intro h
    rw [parse_message_list, parse_message_list, parse_eq_foldl_ins,
      parse_eq_foldl_ins]
    simp [List.filterMap_append, List.filterMap_cons, h]
  · intro h
    simp only [parseLine]
    split_ifs with h1 h2 h3 h4 <;> first
      | rfl
      | (rw [h] at h3; exact absurd h3 (by decide))
  · intro p m h
    simp only [parseLine] at h
    split_ifs at h with h1 h2 h3 h4
    have hpm := Option.some.inj h
    have hp : p = strip (splitAtFirstSlash (strip line).toList).1.asString :=
      (congrArg Prod.fst hpm).symm
    have hm : m = strip (splitAtFirstSlash (strip line).toList).2.asString :=
      (congrArg Prod.snd hpm).symm
    push_neg at h4
    exact ⟨h3, hp, hm, hp ▸ h4.1, hm ▸ h4.2⟩

/-! ### Resolver lemmas -/

/-- The descriptors one `(package, msg_types)` entry contributes. -/
def locGens (env : LocEnv) (pm : String × List String) :
    List IdlGenerator :=
  match find_ros_share_dir env pm.1 with
  | Except.error _ => []
  | Except.ok share_dir =>
    if env.pathExists (msgDirOf share_dir) then
      pm.2.filterMap (fun msg_type =>
        if env.pathExists (idlPathOf (msgDirOf share_dir) msg_type) then
          some ⟨pm.1, msg_type, idlPathOf (msgDirOf share_dir) msg_type⟩
        else none)
    else []

/-- Whether one entry lands in `missing_packages`. -/
def locMiss (env : LocEnv) (pm : String × List String) : Option String :=
  match find_ros_share_dir env pm.1 with
  | Except.error _ => some pm.1
  | Except.ok _ => none

theorem locStep_eq (env : LocEnv) (acc : List IdlGenerator × List String)
    (pm : String × List String) :
    locStep env acc pm =
      (acc.1 ++ locGens env pm, acc.2 ++ (locMiss env pm).toList) := by
  unfold locStep locGens locMiss
  cases h : find_ros_share_dir env pm.1 with
  | error e => simp
  | ok s =>
    by_cases hp : env.pathExists (msgDirOf s) <;> simp [hp]

theorem locate_foldl (env : LocEnv) (m : List (String × List String)) :
    ∀ acc, m.foldl (locStep env) acc =
      (acc.1 ++ m.flatMap (locGens env),
       acc.2 ++ m.filterMap (locMiss env)) := by
  induction m with
  | nil => intro acc; simp
  | cons pm rest ih =>
    intro acc
    rw [List.foldl_cons, locStep_eq, ih]
    cases h : locMiss env pm <;>
      simp [List.flatMap_cons, List.filterMap_cons, h]

/-- Closed form of the resolver: each entry contributes its descriptors
in order, and exactly the entries with a failed share-dir lookup land in
`missing_packages`. -/
theorem locate_idl_files_eq (env : LocEnv)
    (m : List (String × List String)) :
    locate_idl_files env m =
      (m.flatMap (locGens env), m.filterMap (locMiss env)) := by
  rw [locate_idl_files, locate_foldl]; simp

theorem locGens_of_error (env : LocEnv) (pm : String × List String)
    (e : String) (h : find_ros_share_dir env pm.1 = Except.error e) :
    locGens env pm = [] := by
  unfold locGens; rw [h]

theorem locGens_of_no_msg_dir (env : LocEnv) (pm : String × List String)
    (s : String) (h : find_ros_share_dir env pm.1 = Except.ok s)
    (hp : env.pathExists (msgDirOf s) = false) :
    locGens env pm = [] := by
  unfold locGens; rw [h]; simp [hp]

theorem locGens_of_ok (env : LocEnv) (pm : String × List String)
    (s : String) (h : find_ros_share_dir env pm.1 = Except.ok s)
    (hp : env.pathExists (msgDirOf s) = true) :
    locGens env pm = pm.2.filterMap (fun msg_type =>
      if env.pathExists (idlPathOf (msgDirOf s) msg_type) then
        some ⟨pm.1, msg_type, idlPathOf (msgDirOf s) msg_type⟩
      else none) := by
  unfold locGens; rw [h]; simp [hp]

theorem locGens_package (env : LocEnv) (pm : String × List String)
    (g : IdlGenerator) (hg : g ∈ locGens env pm) : g.package = pm.1 := by
  cases h : find_ros_share_dir env pm.1 with
  | error e =>
    rw [locGens_of_error env pm e h] at hg
    exact absurd hg (List.not_mem_nil g)
  | ok s =>
    by_cases hp : env.pathExists (msgDirOf s)
    · rw [locGens_of_ok env pm s h hp] at hg
      obtain ⟨t, _, hsome⟩ := List.mem_filterMap.mp hg
      split at hsome
      · have := Option.some.inj hsome
        subst this; rfl
      · exact Option.noConfusion hsome
    · rw [locGens_of_no_msg_dir env pm s h (by simpa using hp)] at hg
      exact absurd hg (List.not_mem_nil g)

theorem flatMap_filter_of_empty (env : LocEnv) (p : String)
    (m : List (String × List String))
    (hall : ∀ pm ∈ m, pm.1 = p → locGens env pm = []) :
    m.flatMap (locGens env) =
      (m.filter (fun pm => pm.1 != p)).flatMap (locGens env) := by
  induction m with
  | nil => simp
  | cons pm rest ih =>
    have hrest : ∀ q ∈ rest, q.1 = p → locGens env q = [] :=
      fun q hq => hall q (List.mem_cons_of_mem pm hq)
    by_cases h : pm.1 = p
    · simp [List.flatMap_cons, List.filter_cons, h,
        hall pm (List.mem_cons_self pm rest) h, ih hrest]
    · simp [List.flatMap_cons, List.filter_cons, h, ih hrest]

/-- C5: a package whose registry lookup fails (non-zero exit or empty
path, both surfacing as an error of `find_ros_share_dir`) contributes no
descriptor, lands in `missing_packages`, and removing it from the map
leaves the other packages' descriptors unchanged; a package whose share
dir lacks a `msg` subdirectory likewise contributes no descriptor (and
is not in `missing_packages`), with the rest unaffected. -/
theorem locate_skips_failed_package (env : LocEnv)
    (m : List (String × List String)) :
    (∀ p e, find_ros_share_dir env p = Except.error e →
      (∀ g ∈ (locate_idl_files env m).1, g.package ≠ p)
      ∧ (∀ ms, (p, ms) ∈ m → p ∈ (locate_idl_files env m).2)
      ∧ (locate_idl_files env m).1 =
          (locate_idl_files env (m.filter (fun pm => pm.1 != p))).1)
    ∧ (∀ p s, find_ros_share_dir env p = Except.ok s →
        env.pathExists (msgDirOf s) = false →
        (∀ g ∈ (locate_idl_files env m).1, g.package ≠ p)
        ∧ p ∉ (locate_idl_files env m).2
        ∧ (locate_idl_files env m).1 =
            (locate_idl_files env (m.filter (fun pm => pm.1 != p))).1) := by
  constructor
  · intro p e hfail
    have hempty : ∀ pm ∈ m, pm.1 = p → locGens env pm = [] :=
      fun pm _ hp => locGens_of_error env pm e (hp ▸ hfail)
    refine ⟨?_, ?_, ?_⟩
    · intro g hg hp
      rw [locate_idl_files_eq] at hg
      obtain ⟨pm, hpm, hmem⟩ := List.mem_flatMap.mp hg
      have := locGens_package env pm g hmem
      rw [hempty pm hpm (this ▸ hp.symm ▸ rfl)] at hmem
      exact absurd hmem (List.not_mem_nil g)
    · intro ms hms
      rw [locate_idl_files_eq]
      exact List.mem_filterMap.mpr ⟨(p, ms), hms, by
        unfold locMiss; rw [hfail]⟩
    · rw [locate_idl_files_eq, locate_idl_files_eq]
      exact flatMap_filter_of_empty env p m hempty
  · intro p s hok hmsg
    have hempty : ∀ pm ∈ m, pm.1 = p → locGens env pm = [] :=
      fun pm _ hp => locGens_of_no_msg_dir env pm s (hp ▸ hok) hmsg
    refine ⟨?_, ?_, ?_⟩
    · intro g hg hp
      rw [locate_idl_files_eq] at hg
      obtain ⟨pm, hpm, hmem⟩ := List.mem_flatMap.mp hg
      have := locGens_package env pm g hmem
      rw [hempty pm hpm (this ▸ hp.symm ▸ rfl)] at hmem
      exact absurd hmem (List.not_mem_nil g)
    · intro hmem
      rw [locate_idl_files_eq] at hmem
      obtain ⟨pm, _, hsome⟩ := List.mem_filterMap.mp hmem
      unfold locMiss at hsome
      cases hf : find_ros_share_dir env pm.1 with
      | error e =>
        rw [hf] at hsome
        have hpp : pm.1 = p := Option.some.inj hsome
        rw [hpp, hok] at hf
        exact Except.noConfusion hf
      | ok t => rw [hf] at hsome; exact Option.noConfusion hsome
    · rw [locate_idl_files_eq, locate_idl_files_eq]
      exact flatMap_filter_of_empty env p m hempty

/-- C6: for a package whose share directory and `msg` subdirectory
resolve, the resolver contributes exactly one descriptor per message
type whose `.idl` file exists, in the order of the package's message
list, with the other entries of the map unaffected. -/
theorem locate_resolves_package_messages (env : LocEnv)
    (m1 m2 : List (String × List String)) (p : String) (ms : List String)
    (s : String) (hfind : find_ros_share_dir env p = Except.ok s)
    (hmsg : env.pathExists (msgDirOf s) = true) :
    (locate_idl_files env (m1 ++ (p, ms) :: m2)).1 =
      (locate_idl_files env m1).1
      ++ ms.filterMap (fun msg_type =>
          if env.pathExists (idlPathOf (msgDirOf s) msg_type) then
            some ⟨p, msg_type, idlPathOf (msgDirOf s) msg_type⟩
          else none)
      ++ (locate_idl_files env m2).1 := by
  simp only [locate_idl_files_eq, List.flatMap_append, List.flatMap_cons]
  have : locGens env (p, ms) = ms.filterMap (fun msg_type =>
      if env.pathExists (idlPathOf (msgDirOf s) msg_type) then
        some ⟨p, msg_type, idlPathOf (msgDirOf s) msg_type⟩
      else none) := by
    unfold locGens; rw [hfind]; simp [hmsg]
  rw [this, List.append_assoc]

/-- C9: the resolver is deterministic in the installed-package state —
two runs against the same registry answers and the same filesystem
produce identical descriptor lists (message order included) and
identical missing-package lists. -/
theorem locate_idl_files_deterministic (e1 e2 : LocEnv)
    (m : List (String × List String))
    (hreg : ∀ p, e1.registryOut p = e2.registryOut p)
    (hfs : ∀ s, e1.pathExists s = e2.pathExists s) :
    locate_idl_files e1 m = locate_idl_files e2 m := by
  have hfind : ∀ p, find_ros_share_dir e1 p = find_ros_share_dir e2 p := by
    intro p; unfold find_ros_share_dir; rw [hreg]
  have hg : locGens e1 = locGens e2 := by
    funext pm
    cases h : find_ros_share_dir e1 pm.1 with
    | error e =>
      rw [locGens_of_error e1 pm e h,
        locGens_of_error e2 pm e (by rw [← hfind pm.1]; exact h)]
    | ok s =>
      have h2 : find_ros_share_dir e2 pm.1 = Except.ok s := by
        rw [← hfind pm.1]; exact h
      by_cases hp : e2.pathExists (msgDirOf s)
      · have hp1 : e1.pathExists (msgDirOf s) = true := by
          rw [hfs]; exact hp
        rw [locGens_of_ok e1 pm s h hp1, locGens_of_ok e2 pm s h2 hp]
        apply List.filterMap_congr
        intro t _
        rw [hfs]
      · have hp2 : e2.pathExists (msgDirOf s) = false := by simpa using hp
        have hp1 : e1.pathExists (msgDirOf s) = false := by
          rw [hfs]; exact hp2
        rw [locGens_of_no_msg_dir e1 pm s h hp1,
          locGens_of_no_msg_dir e2 pm s h2 hp2]
  have hm : locMiss e1 = locMiss e2 := by
    funext pm; unfold locMiss; rw [hfind]
  rw [locate_idl_files_eq, locate_idl_files_eq, hg, hm]

/-! ### Generator lemmas -/

theorem pkgOutputDirOf_ne_empty (output_dir p : String) :
    pkgOutputDirOf output_dir p ≠ "" := by
  intro h
  have h2 := congrArg String.length h
  rw [pkgOutputDirOf, String.length_append, String.length_append,
    String.length_append] at h2
  have e1 : "/msg".length = 4 := rfl
  have e2 : "/".length = 1 := rfl
  have e3 : "".length = 0 := rfl
  omega

theorem filter_ne_empty_eq_self {l : List String} (h : ∀ a ∈ l, a ≠ "") :
    l.filter (fun a => a != "") = l :=
  List.filter_eq_self.mpr (fun a ha => by simpa [bne_iff_ne] using h a ha)

/-- C4: for every package group, the generator command line is the
binary name, the case-sensitivity flag, the overwrite flag (present
exactly when replace is enabled), the output-directory flag with the
package's output subdirectory, one include flag per include path, then
the IDL file paths — with `--no-replace` the overwrite flag is omitted
entirely, not passed as a blank argument. -/
theorem generator_cmd_structure (output_dir p : String)
    (include_paths : List String) (gens : List IdlGenerator)
    (hinc : ∀ x ∈ include_paths, x ≠ "")
    (hidl : ∀ g ∈ gens, g.idl_path ≠ "") :
    groupCmd output_dir include_paths true p gens =
      ["microxrceddsgen", "-cs", "-replace", "-d",
        pkgOutputDirOf output_dir p]
      ++ include_paths.flatMap (fun x => ["-I", x])
      ++ gens.map (fun g => g.idl_path)
    ∧ groupCmd output_dir include_paths false p gens =
      ["microxrceddsgen", "-cs", "-d", pkgOutputDirOf output_dir p]
      ++ include_paths.flatMap (fun x => ["-I", x])
      ++ gens.map (fun g => g.idl_path) := by
  have hd := pkgOutputDirOf_ne_empty output_dir p
  have hflat : ∀ a ∈ include_paths.flatMap (fun x => ["-I", x]), a ≠ "" := by
    intro a ha
    obtain ⟨x, hx, hax⟩ := List.mem_flatMap.mp ha
    rcases List.mem_cons.mp hax with h | h
    · subst h; decide
    · rw [List.mem_singleton.mp h]; exact hinc x hx
  have hmap : ∀ a ∈ gens.map (fun g => g.idl_path), a ≠ "" := by
    intro a ha
    obtain ⟨g, hg, hag⟩ := List.mem_map.mp ha
    exact hag ▸ hidl g hg
  constructor
  · rw [groupCmd, build_generator_cmd]
    apply List.filter_eq_self.mpr
    intro a ha
    simp only [List.mem_append] at ha
    rcases ha with (ha | ha) | ha
    · simp only [List.mem_cons, List.not_mem_nil, or_false] at ha
      rcases ha with rfl | rfl | rfl | rfl | rfl <;>
        simp [bne_iff_ne, hd]
    · simpa [bne_iff_ne] using hflat a ha
    · simpa [bne_iff_ne] using hmap a ha
  · rw [groupCmd, build_generator_cmd]
    rw [List.filter_append, List.filter_append,
      filter_ne_empty_eq_self hflat, filter_ne_empty_eq_self hmap]
    congr 1
    congr 1
    simp [List.filter_cons, bne_iff_ne, hd]

theorem foldl_append_eq_flatMap {α β : Type} (f : α → List β)
    (l : List α) :
    ∀ acc, l.foldl (fun a x => a ++ f x) acc = acc ++ l.flatMap f := by
  induction l with
  | nil => intro acc; simp
  | cons x xs ih => intro acc; rw [List.foldl_cons, ih]; simp

/-- Closed form of `generate_uxr_code`: concatenation of the per-group
contributions, in first-seen package order. -/
theorem generate_uxr_code_eq (env : GenEnv) (gens : List IdlGenerator)
    (output_dir : String) (include_paths : List String) (replace : Bool) :
    generate_uxr_code env gens output_dir include_paths replace =
      (groupByPackage gens).flatMap
        (fun pg => processGroup env output_dir include_paths replace
          pg.1 pg.2) := by
  rw [generate_uxr_code, foldl_append_eq_flatMap]
  simp

theorem foldl_record (env : GenEnv) (dir : String)
    (gens : List IdlGenerator) :
    ∀ acc, gens.foldl (fun acc gen =>
        if env.fileExists (dir ++ "/" ++ gen.h_name)
            && env.fileExists (dir ++ "/" ++ gen.c_name) then
          acc ++ [dir ++ "/" ++ gen.h_name, dir ++ "/" ++ gen.c_name]
        else acc) acc
      = acc ++ gens.flatMap (fun gen =>
          if env.fileExists (dir ++ "/" ++ gen.h_name)
              && env.fileExists (dir ++ "/" ++ gen.c_name) then
            [dir ++ "/" ++ gen.h_name, dir ++ "/" ++ gen.c_name]
          else []) := by
  induction gens with
  | nil => intro acc; simp
  | cons g gs ih =>
    intro acc
    rw [List.foldl_cons, ih]
    by_cases hA : env.fileExists (dir ++ "/" ++ g.h_name) = true <;>
      by_cases hB : env.fileExists (dir ++ "/" ++ g.c_name) = true <;>
      simp [List.flatMap_cons, hA, hB]

/-- Per-group closed form: on a failed invocation nothing is recorded;
on success each descriptor contributes its header/source pair exactly
when both files exist. -/
theorem processGroup_eq (env : GenEnv) (output_dir : String)
    (include_paths : List String) (replace : Bool) (p : String)
    (gens : List IdlGenerator) :
    processGroup env output_dir include_paths replace p gens =
      if env.runOk (groupCmd output_dir include_paths replace p gens) then
        gens.flatMap (fun gen =>
          if env.fileExists (pkgOutputDirOf output_dir p ++ "/" ++ gen.h_name)
              && env.fileExists
                (pkgOutputDirOf output_dir p ++ "/" ++ gen.c_name) then
            [pkgOutputDirOf output_dir p ++ "/" ++ gen.h_name,
              pkgOutputDirOf output_dir p ++ "/" ++ gen.c_name]
          else [])
      else [] := by
  rw [processGroup]
  split
  · rw [foldl_record]; simp
  · rfl

/-- C7: a generator invocation failing for one package group removes
exactly that group's contribution — the other groups still contribute —
and every recorded file comes from a group whose invocation succeeded. -/
theorem generator_failure_isolated (env : GenEnv)
    (gens : List IdlGenerator) (output_dir : String)
    (include_paths : List String) (replace : Bool) :
    (∀ gs1 gs2 p pgens,
      groupByPackage gens = gs1 ++ (p, pgens) :: gs2 →
      env.runOk (groupCmd output_dir include_paths replace p pgens) = false →
      generate_uxr_code env gens output_dir include_paths replace =
        gs1.flatMap (fun pg =>
          processGroup env output_dir include_paths replace pg.1 pg.2)
        ++ gs2.flatMap (fun pg =>
          processGroup env output_dir include_paths replace pg.1 pg.2))
    ∧ ∀ f ∈ generate_uxr_code env gens output_dir include_paths replace,
        ∃ pg ∈ groupByPackage gens,
          env.runOk (groupCmd output_dir include_paths replace
            pg.1 pg.2) = true
          ∧ f ∈ processGroup env output_dir include_paths replace
              pg.1 pg.2 := by
  constructor
  · intro gs1 gs2 p pgens hsplit hfail
    rw [generate_uxr_code_eq, hsplit, List.flatMap_append,
      List.flatMap_cons]
    have : processGroup env output_dir include_paths replace p pgens = [] := by
      rw [processGroup_eq, hfail]; simp
    rw [this]
    simp
  · intro f hf
    rw [generate_uxr_code_eq] at hf
    obtain ⟨pg, hpg, hfpg⟩ := List.mem_flatMap.mp hf
    refine ⟨pg, hpg, ?_, hfpg⟩
    cases hrun : env.runOk (groupCmd output_dir include_paths replace
        pg.1 pg.2) with
    | true => rfl
    | false =>
      rw [processGroup_eq, hrun] at hfpg
      simp at hfpg

theorem foldl_insertGen_single (p : String) (gens : List IdlGenerator) :
    ∀ acc, (∀ g ∈ gens, g.package = p) →
      gens.foldl insertGen [(p, acc)] = [(p, acc ++ gens)] := by
  induction gens with
  | nil => intro acc _; simp
  | cons g gs ih =>
    intro acc hall
    rw [List.foldl_cons]
    have hp : g.package = p := hall g (List.mem_cons_self g gs)
    have : insertGen [(p, acc)] g = [(p, acc ++ [g])] := by
      rw [insertGen, if_pos hp.symm]
    rw [this, ih (acc ++ [g])
      (fun q hq => hall q (List.mem_cons_of_mem g hq))]
    simp

theorem groupByPackage_single (gens : List IdlGenerator) (p : String)
    (hne : gens ≠ []) (hall : ∀ g ∈ gens, g.package = p) :
    groupByPackage gens = [(p, gens)] := by
  cases gens with
  | nil => exact absurd rfl hne
  | cons g gs =>
    have hp : g.package = p := hall g (List.mem_cons_self g gs)
    rw [groupByPackage, List.foldl_cons]
    have h1 : insertGen [] g = [(g.package, [g])] := rfl
    rw [h1, hp, foldl_insertGen_single p gs [g]
      (fun q hq => hall q (List.mem_cons_of_mem g hq))]
    simp

/-- C8: when the generator succeeds for a (single-package) group, the
run records, per descriptor, `<output>/<package>/msg/<type lowercased>.h`
and the matching `.c` — both exactly when both exist, neither
otherwise. -/
theorem group_outputs_recorded_iff_exist (env : GenEnv)
    (output_dir : String) (include_paths : List String) (replace : Bool)
    (p : String) (gens : List IdlGenerator) (hne : gens ≠ [])
    (hall : ∀ g ∈ gens, g.package = p)
    (hok : env.runOk (groupCmd output_dir include_paths replace p gens)
      = true) :
    generate_uxr_code env gens output_dir include_paths replace =
      gens.flatMap (fun gen =>
        if env.fileExists (pkgOutputDirOf output_dir p ++ "/"
              ++ gen.msg_type.toLower ++ ".h")
            && env.fileExists (pkgOutputDirOf output_dir p ++ "/"
              ++ gen.msg_type.toLower ++ ".c") then
          [pkgOutputDirOf output_dir p ++ "/" ++ gen.msg_type.toLower
              ++ ".h",
            pkgOutputDirOf output_dir p ++ "/" ++ gen.msg_type.toLower
              ++ ".c"]
        else []) := by
  rw [generate_uxr_code_eq, groupByPackage_single gens p hne hall,
    List.flatMap_cons, List.flatMap_nil, List.append_nil,
    processGroup_eq, if_pos hok]
  simp [IdlGenerator.h_name, IdlGenerator.c_name, String.append_assoc]

theorem insertGen_inv (P : IdlGenerator → Prop) (gen : IdlGenerator)
    (hgen : P gen) :
    ∀ (acc : List (String × List IdlGenerator)),
      (∀ pg ∈ acc, ∀ g ∈ pg.2, P g ∧ g.package = pg.1) →
      ∀ pg ∈ insertGen acc gen, ∀ g ∈ pg.2, P g ∧ g.package = pg.1 := by
  intro acc
  induction acc with
  | nil =>
    intro _ pg hpg g hg
    simp only [insertGen, List.mem_singleton] at hpg
    subst hpg
    simp only [List.mem_singleton] at hg
    subst hg
    exact ⟨hgen, rfl⟩
  | cons hd tl ih =>
    obtain ⟨p, gs⟩ := hd
    intro hacc pg hpg g hg
    by_cases hp : p = gen.package
    · rw [insertGen, if_pos hp] at hpg
      rcases List.mem_cons.mp hpg with rfl | hpg
      · rcases List.mem_append.mp hg with hg | hg
        · exact hacc (p, gs) (List.mem_cons_self _ tl) g hg
        · rw [List.mem_singleton.mp hg]
          exact ⟨hgen, hp.symm⟩
      · exact hacc pg (List.mem_cons_of_mem _ hpg) g hg
    · rw [insertGen, if_neg hp] at hpg
      rcases List.mem_cons.mp hpg with rfl | hpg
      · exact hacc (p, gs) (List.mem_cons_self _ tl) g hg
      · exact ih (fun q hq => hacc q (List.mem_cons_of_mem _ hq)) pg hpg g hg

theorem foldl_insertGen_inv (P : IdlGenerator → Prop) :
    ∀ (gens : List IdlGenerator)
      (acc : List (String × List IdlGenerator)),
      (∀ g ∈ gens, P g) →
      (∀ pg ∈ acc, ∀ g ∈ pg.2, P g ∧ g.package = pg.1) →
      ∀ pg ∈ gens.foldl insertGen acc, ∀ g ∈ pg.2,
        P g ∧ g.package = pg.1 := by
  intro gens
  induction gens with
  | nil => intro acc _ hacc; simpa using hacc
  | cons g gs ih =>
    intro acc hgens hacc
    rw [List.foldl_cons]
    exact ih (insertGen acc g)
      (fun q hq => hgens q (List.mem_cons_of_mem g hq))
      (insertGen_inv P g (hgens g (List.mem_cons_self g gs)) acc hacc)

/-- Every descriptor inside a group of `groupByPackage` is one of the
grouped descriptors and carries the group's package key. -/
theorem groupByPackage_mem (gens : List IdlGenerator) :
    ∀ pg ∈ groupByPackage gens, ∀ g ∈ pg.2, g ∈ gens ∧ g.package = pg.1 :=
  foldl_insertGen_inv (fun g => g ∈ gens) gens [] (fun _ h => h) (by simp)

theorem flatMap_pairs {α : Type} (cond : α → Bool) (hf cf : α → String)
    (l : List α) :
    l.flatMap (fun x => if cond x then [hf x, cf x] else []) =
      (l.filterMap (fun x =>
        if cond x then some (hf x, cf x) else none)).flatMap
        (fun pr => [pr.1, pr.2]) := by
  induction l with
  | nil => rfl
  | cons x xs ih =>
    by_cases hx : cond x <;>
      simp [List.flatMap_cons, List.filterMap_cons, hx, ih]

theorem length_pair_flatMap (pairs : List (String × String)) :
    (pairs.flatMap (fun pr => [pr.1, pr.2])).length = 2 * pairs.length := by
  induction pairs with
  | nil => rfl
  | cons pr rest ih => simp [List.flatMap_cons, ih]; omega

/-- C10: the generated-file list is a flattening of header/source pairs
— each descriptor contributes its header immediately followed by its
source, or nothing — so the list has even length and every pair belongs
to a single descriptor of the input. -/
theorem generated_files_paired (env : GenEnv) (gens : List IdlGenerator)
    (output_dir : String) (include_paths : List String) (replace : Bool) :
    ∃ pairs : List (String × String),
      generate_uxr_code env gens output_dir include_paths replace =
        pairs.flatMap (fun pr => [pr.1, pr.2])
      ∧ (generate_uxr_code env gens output_dir include_paths
          replace).length % 2 = 0
      ∧ ∀ pr ∈ pairs, ∃ g, g ∈ gens
          ∧ pr.1 = pkgOutputDirOf output_dir g.package ++ "/" ++ g.h_name
          ∧ pr.2 = pkgOutputDirOf output_dir g.package ++ "/" ++ g.c_name := by
  have key : generate_uxr_code env gens output_dir include_paths replace =
      ((groupByPackage gens).flatMap (fun pg =>
        if env.runOk (groupCmd output_dir include_paths replace
            pg.1 pg.2) then
          pg.2.filterMap (fun g =>
            if env.fileExists
                (pkgOutputDirOf output_dir pg.1 ++ "/" ++ g.h_name)
                && env.fileExists
                  (pkgOutputDirOf output_dir pg.1 ++ "/" ++ g.c_name) then
              some (pkgOutputDirOf output_dir pg.1 ++ "/" ++ g.h_name,
                pkgOutputDirOf output_dir pg.1 ++ "/" ++ g.c_name)
            else none)
        else [])).flatMap (fun pr => [pr.1, pr.2]) := by
    rw [generate_uxr_code_eq, List.flatMap_assoc]
    apply List.flatMap_congr
    intro pg _
    rw [processGroup_eq]
    by_cases hrun : env.runOk
        (groupCmd output_dir include_paths replace pg.1 pg.2)
    · rw [if_pos hrun, if_pos hrun]
      exact flatMap_pairs
        (fun g => env.fileExists
            (pkgOutputDirOf output_dir pg.1 ++ "/" ++ g.h_name)
          && env.fileExists
            (pkgOutputDirOf output_dir pg.1 ++ "/" ++ g.c_name))
        (fun g => pkgOutputDirOf output_dir pg.1 ++ "/" ++ g.h_name)
        (fun g => pkgOutputDirOf output_dir pg.1 ++ "/" ++ g.c_name) pg.2
    · rw [if_neg hrun, if_neg hrun]; rfl
  refine ⟨_, key, ?_, ?_⟩
  · rw [key, length_pair_flatMap]; omega
  · intro pr hpr
    obtain ⟨pg, hpg, hprF⟩ := List.mem_flatMap.mp hpr
    by_cases hrun : env.runOk
        (groupCmd output_dir include_paths replace pg.1 pg.2)
    · rw [if_pos hrun] at hprF
      obtain ⟨g, hgmem, hsome⟩ := List.mem_filterMap.mp hprF
      have hginfo := groupByPackage_mem gens pg hpg g hgmem
      split at hsome
      · have hpr_eq := Option.some.inj hsome
        refine ⟨g, hginfo.1, ?_, ?_⟩
        · rw [hginfo.2, ← hpr_eq]
        · rw [hginfo.2, ← hpr_eq]
      · exact Option.noConfusion hsome
    · rw [if_neg hrun] at hprF
      exact absurd hprF (List.not_mem_nil pr)

/-! ### `main` exit codes -/

/-- C3: the program's exit code is 0 or 1; it is 0 exactly when the
message file exists, the parsed map is non-empty, and at least one IDL
descriptor was resolved — regardless of generator failures — and the
parser raises `FileNotFoundError` on a missing file. -/
theorem main_exit_code (env : MainEnv) :
    (mainRun env = 0 ∨ mainRun env = 1)
    ∧ (mainRun env = 0 ↔ ∃ lines, env.messageFile = some lines
        ∧ parse_message_list lines ≠ []
        ∧ (locate_idl_files env.locEnv (parse_message_list lines)).1 ≠ [])
    ∧ parse_message_list_checked none =
        Except.error "FileNotFoundError: Message list file not found" := by
  refine ⟨?_, ?_, rfl⟩
  · cases hf : env.messageFile with
    | none => right; rw [mainRun, hf]; simp only [parse_message_list_checked]
    | some lines =>
      rw [mainRun, hf]; simp only [parse_message_list_checked]
      by_cases h1 : (parse_message_list lines).isEmpty
      · right; simp [h1]
      · by_cases h2 : ((locate_idl_files env.locEnv
            (parse_message_list lines)).1).isEmpty
        · right; simp [h1, h2]
        · left; simp [h1, h2]
  · cases hf : env.messageFile with
    | none =>
      rw [mainRun, hf]; simp only [parse_message_list_checked]
      simp
    | some lines =>
      rw [mainRun, hf]; simp only [parse_message_list_checked]
      constructor
      · intro h
        by_cases h1 : (parse_message_list lines).isEmpty
        · rw [if_pos h1] at h; exact absurd h (by decide)
        · by_cases h2 : ((locate_idl_files env.locEnv
              (parse_message_list lines)).1).isEmpty
          · rw [if_neg h1, if_pos h2] at h; exact absurd h (by decide)
          · exact ⟨lines, rfl,
              fun hx => h1 (by simp [hx]),
              fun hx => h2 (by simp [hx])⟩
      · rintro ⟨l, hl, hne1, hne2⟩
        obtain rfl := (Option.some.inj hl).symm
        rw [if_neg (fun hx => hne1 (List.isEmpty_iff.mp hx)),
          if_neg (fun hx => hne2 (List.isEmpty_iff.mp hx))]

/-! ### Concrete fixtures and witnesses -/

/-- A concrete installed-package state: `std_msgs` is installed with a
`Header.idl`, every other package is unknown to the registry. -/
def wEnv : LocEnv where
  registryOut := fun p =>
    if p = "std_msgs" then some " /opt/ros/share/std_msgs " else none
  pathExists := fun s =>
    s == "/opt/ros/share/std_msgs/msg"
      || s == "/opt/ros/share/std_msgs/msg/Header.idl"

/-- A message map naming one missing and one installed package. -/
def wMap : List (String × List String) :=
  [("bad_pkg", ["X"]), ("std_msgs", ["Header"])]

/-- A concrete descriptor. -/
def wGen : IdlGenerator := ⟨"pkg", "Msg", "/idl/Msg.idl"⟩

/-- A second descriptor of the same package whose outputs are missing. -/
def wGen2 : IdlGenerator := ⟨"pkg", "Bad", "/idl/Bad.idl"⟩

/-- A generator environment whose invocations always fail. -/
def wGenFail : GenEnv := ⟨fun _ => false, fun _ => true⟩

/-- A generator environment whose invocations succeed and which produced
exactly `wGen`'s two output files. -/
def wGenOk : GenEnv :=
  ⟨fun _ => true, fun s =>
    s == "/out/pkg/msg/msg.h" || s == "/out/pkg/msg/msg.c"⟩

/-- Witness for C2: a malformed line between two valid lines is skipped
and parsing continues. -/
theorem parse_line_validation_witness :
    parse_message_list (["x/y"] ++ "nope" :: ["a/b"]) =
      parse_message_list (["x/y"] ++ ["a/b"]) :=
  (parse_line_validation ["x/y"] ["a/b"] "nope").1 rfl

/-- Witness for C4: with replace disabled the command line for a
concrete group carries no overwrite flag and no blank argument. -/
theorem generator_cmd_structure_witness :
    groupCmd "/out" ["/inc"] false "pkg" [wGen] =
      ["microxrceddsgen", "-cs", "-d", pkgOutputDirOf "/out" "pkg"]
      ++ ["/inc"].flatMap (fun x => ["-I", x])
      ++ [wGen].map (fun g => g.idl_path) :=
  (generator_cmd_structure "/out" "pkg" ["/inc"] [wGen]
    (by decide) (by decide)).2

/-- Witness for C5: the failing package of `wMap` lands in
`missing_packages`. -/
theorem locate_skips_failed_package_witness :
    "bad_pkg" ∈ (locate_idl_files wEnv wMap).2 :=
  ((locate_skips_failed_package wEnv wMap).1 "bad_pkg"
    "CalledProcessError" rfl).2.1 ["X"] (by decide)

/-- Witness for C6: a resolving package contributes exactly its
existing-IDL messages, in order. -/
theorem locate_resolves_package_messages_witness :
    (locate_idl_files wEnv
        ([] ++ ("std_msgs", ["Header", "Missing"]) :: [])).1 =
      (locate_idl_files wEnv []).1
      ++ ["Header", "Missing"].filterMap (fun msg_type =>
          if wEnv.pathExists
              (idlPathOf (msgDirOf "/opt/ros/share/std_msgs") msg_type) then
            some ⟨"std_msgs", msg_type,
              idlPathOf (msgDirOf "/opt/ros/share/std_msgs") msg_type⟩
          else none)
      ++ (locate_idl_files wEnv []).1 :=
  locate_resolves_package_messages wEnv [] [] "std_msgs"
    ["Header", "Missing"] "/opt/ros/share/std_msgs" rfl rfl

/-- Witness for C7: with a failing generator the single group of `wGen`
contributes nothing. -/
theorem generator_failure_isolated_witness :
    generate_uxr_code wGenFail [wGen] "/out" [] true =
      ([] : List (String × List IdlGenerator)).flatMap (fun pg =>
        processGroup wGenFail "/out" [] true pg.1 pg.2)
      ++ ([] : List (String × List IdlGenerator)).flatMap (fun pg =>
        processGroup wGenFail "/out" [] true pg.1 pg.2) :=
  (generator_failure_isolated wGenFail [wGen] "/out" [] true).1
    [] [] "pkg" [wGen] (by decide) rfl

/-- Witness for C8: on a successful invocation each descriptor's pair is
recorded exactly when both output files exist. -/
theorem group_outputs_recorded_iff_exist_witness :
    generate_uxr_code wGenOk [wGen, wGen2] "/out" [] true =
      [wGen, wGen2].flatMap (fun gen =>
        if wGenOk.fileExists (pkgOutputDirOf "/out" "pkg" ++ "/"
              ++ gen.msg_type.toLower ++ ".h")
            && wGenOk.fileExists (pkgOutputDirOf "/out" "pkg" ++ "/"
              ++ gen.msg_type.toLower ++ ".c") then
          [pkgOutputDirOf "/out" "pkg" ++ "/" ++ gen.msg_type.toLower
              ++ ".h",
            pkgOutputDirOf "/out" "pkg" ++ "/" ++ gen.msg_type.toLower
              ++ ".c"]
        else []) :=
  group_outputs_recorded_iff_exist wGenOk "/out" [] true "pkg"
    [wGen, wGen2] (by decide) (by decide) rfl

/-- Witness for C9: a rerun of the resolver on the fixture state gives
the same result. -/
theorem locate_idl_files_deterministic_witness :
    locate_idl_files wEnv wMap = locate_idl_files wEnv wMap :=
  locate_idl_files_deterministic wEnv wEnv wMap
    (fun _ => rfl) (fun _ => rfl)

end DdsGen
